import Mathlib

/-
Verification of the mysql-cluster-pool core (src/lib/cluster-pool.js):
a shallow embedding of the cluster state, the `add` operation, the
`acquire` selection algorithm and the aggregation reads, together with
theorems about them.
-/

set_option linter.unusedVariables false

namespace ClusterPool

/-- Value stored in a factory / configuration object field: a number, a
boolean, a string, or a function (identified by a tag). -/
inductive FVal where
  | num (n : Int)
  | boolean (b : Bool)
  | str (s : String)
  | fn (id : Nat)
deriving DecidableEq, Repr

/-- A JavaScript object, as an ordered association list from string keys to
values (JS objects cannot hold the same key twice; insertion order is the
enumeration order of `for..in` over plain string keys). -/
abbrev Obj : Type := List (String × FVal)

/-- JS property write `o[k] = v`: overwrite the existing entry for `k`
(keeping its position) or append a new one at the end. -/
def objSet (o : Obj) (k : String) (v : FVal) : Obj :=
  if (o.lookup k).isSome then
    o.map (fun p => if p.1 = k then (k, v) else p)
  else
    o ++ [(k, v)]

/-- The copy loop of `me.add`: `for (var i in src) dst[i] = src[i]`. -/
def copyInto (dst src : Obj) : Obj :=
  src.foldl (fun d p => objSet d p.1 p.2) dst

/-- One member of the cluster: the configuration object its pool was built
from (`pool_factory`), together with the counters owned by the external
generic-pool instance as sampled at the current instant
(`getPoolSize()`, `availableObjectsCount()`, `waitingClientsCount()`). -/
structure Member where
  config : Obj
  poolSize : Nat
  availableObjects : Nat
  waitingClients : Nat
deriving DecidableEq, Repr

/-- External `PoolModule.Pool(pool_factory)` construction, modelled as a
member holding the given configuration with all counters at zero (the
counters evolve outside this core and are arbitrary in every theorem that
quantifies over states). -/
def PoolModule_Pool (f : Obj) : Member :=
  { config := f, poolSize := 0, availableObjects := 0, waitingClients := 0 }

/-- State owned by one created cluster: `me.cluster` and `me.index`. -/
structure ClusterState where
  cluster : List Member
  index : Nat
deriving DecidableEq, Repr

/-- The state a fresh `ClusterPool.create(factory)` call sets up:
`{ cluster: [], index: 0 }`. -/
def create : ClusterState := { cluster := [], index := 0 }

/-- The `pool_factory` object built inside `me.add`: a fresh empty object,
every field of the shared factory copied in, then the supplied producer
substituted as its `create` field. -/
def mkPoolFactory (factory : Obj) (create : FVal) : Obj :=
  objSet (copyInto [] factory) "create" create

/-- The `me.add(create)` method.  The shared factory object is only read by
the source, so it is threaded explicitly and returned alongside the new
cluster state. -/
def add (factory : Obj) (st : ClusterState) (create : FVal) : Obj × ClusterState :=
  (factory,
   { st with cluster := st.cluster ++ [PoolModule_Pool (mkPoolFactory factory create)] })

/-- JS `typeof x` for the values `useIndex` ranges over in `me.acquire`:
`undefined` (none) or a number. -/
def jsTypeof : Option Int → String
  | none => "undefined"
  | some _ => "number"

/-- Numeric value of a single decimal digit character, `none` otherwise. -/
def digitVal (c : Char) : Option Nat :=
  if c.isDigit then some (c.toNat - 48) else none

/-- Value of a nonempty all-digit character list, `none` otherwise. -/
def digitsVal (cs : List Char) : Option Nat :=
  if cs.isEmpty then none
  else cs.foldl (fun acc c =>
    match acc, digitVal c with
    | some a, some d => some (a * 10 + d)
    | _, _ => none) (some 0)

/-- JS `ToNumber` on a string, restricted to optionally-signed integer
literals; any other string (such as the results of `typeof`) is NaN,
returned as `none`. -/
def toNumberStr (s : String) : Option Int :=
  match s.data with
  | [] => some 0
  | '-' :: rest => (digitsVal rest).map (fun n => -(n : Int))
  | cs => (digitsVal cs).map Int.ofNat

/-- JS loose equality `s == n` between a string and a number: compare
`ToNumber(s)` with `n`; a NaN left side is unequal to every number. -/
def jsLooseEqStrNum (s : String) (n : Int) : Bool :=
  match toNumberStr s with
  | some m => m == n
  | none => false

/-- JS `poolWaiting[tryIndex] == 0`: a hole of the array reads back as
`undefined`, which is not loosely equal to `0`; a number compares as
usual. -/
def jsEqZero : Option Nat → Bool
  | some v => v == 0
  | none => false

/-- One step of the underscore `_.min` loop: keep `result` unless the
current value is a number below it.  A hole reads as `undefined`, which
never wins a `<` comparison and is therefore skipped; `none` as the
accumulator stands for the initial `Infinity`. -/
def usMinStep (result value : Option Nat) : Option Nat :=
  match value with
  | none => result
  | some n =>
    match result with
    | none => some n
    | some m => if n < m then some n else result

/-- The underscore `_.min(poolWaiting)` call: minimum of the numbers
present in the array, `none` (`Infinity`) if none are. -/
def usMin (pw : List (Option Nat)) : Option Nat :=
  pw.foldl usMinStep none

/-- The underscore `_.indexOf(poolWaiting, v)` call: index of the first
element strictly equal to `v`, else `-1`.  Here `v` is the result of
`_.min` (`none` standing for `Infinity`); a hole reads as `undefined`,
which is strictly equal neither to a number nor to `Infinity`. -/
def usIndexOf (pw : List (Option Nat)) (v : Option Nat) : Int :=
  let i := pw.findIdx (fun x =>
    match x, v with
    | some a, some b => a == b
    | _, _ => false)
  if i < pw.length then (i : Int) else -1

/-- The selection loop of `me.acquire`:

`while (checked < N and typeof useIndex === undefined) {`
`  poolWaiting[tryIndex] = this.cluster[tryIndex].waitingClientsCount();`
`  checked++;`
`  if (poolWaiting[tryIndex] == 0) useIndex = tryIndex;`
`  else if (++tryIndex >= N) tryIndex = 0;`
`}`

`w` is the list of the per-member waiting counts, `fuel = N - checked` the
iterations left, and the result is the final `poolWaiting` array together
with `useIndex` (`none` meaning still `undefined`).  Every `tryIndex`
reached from a cursor below `N` stays below `N`, so the out-of-range
default of `getD` is never consulted on the states the theorems are
about. -/
def scanLoop (w : List Nat) : Nat → Nat → List (Option Nat) → List (Option Nat) × Option Nat
  | 0, _, pw => (pw, none)
  | fuel + 1, tryIndex, pw =>
    let pw1 := pw.set tryIndex (some (w.getD tryIndex 0))
    if jsEqZero (pw1.getD tryIndex none) then
      (pw1, some tryIndex)
    else
      scanLoop w fuel (if tryIndex + 1 ≥ w.length then 0 else tryIndex + 1) pw1

/-- Waiting counts as the scan reads them:
`this.cluster[i].waitingClientsCount()`. -/
def waitCounts (st : ClusterState) : List Nat :=
  st.cluster.map Member.waitingClients

/-- The `poolWaiting` array and the `useIndex` value after the while loop,
started with `tryIndex = this.index`, `checked = 0` and an empty
`poolWaiting`. -/
def scanResult (st : ClusterState) : List (Option Nat) × Option Nat :=
  scanLoop (waitCounts st) st.cluster.length st.index
    (List.replicate st.cluster.length none)

/-- The `useIndex` value after the fallback

`if (typeof useIndex === 'undefined')`
`  useIndex = _.indexOf(poolWaiting, _.min(poolWaiting));`

The strict comparison of `typeof useIndex` with the string `undefined`
discriminates exactly whether the loop left `useIndex` unassigned. -/
def useIndexAfterFallback (st : ClusterState) : Int :=
  match scanResult st with
  | (pw, none) => usIndexOf pw (usMin pw)
  | (_, some i) => (i : Int)

/-- Condition of the recovery branch `if (typeof useIndex == -1)`:
`typeof` of the number `useIndex` now holds, loosely compared with the
number `-1`. -/
def recoveryCond (st : ClusterState) : Bool :=
  jsLooseEqStrNum (jsTypeof (some (useIndexAfterFallback st))) (-1)

/-- The `useIndex` finally used to pick the pool and advance the cursor,
after the recovery branch `if (typeof useIndex == -1) useIndex = this.index`. -/
def useIndexFinal (st : ClusterState) : Int :=
  if recoveryCond st then (st.index : Int) else useIndexAfterFallback st

/-- What a `me.acquire` call did: return the configuration error through
the callback, or call `pool.acquire` on `this.cluster[memberIdx]` passing
the given priority argument to that pool. -/
inductive AcquireOutcome where
  | configError (msg : String)
  | delegated (memberIdx : Int) (priority : Option Int)
deriving DecidableEq, Repr

/-- Result of a `me.acquire` call: the cluster state afterwards, what the
call did, and the final `poolWaiting` array — exactly the members whose
waiting counts were read, each with the value that was read, `none` for a
member never touched. -/
structure AcquireResult where
  st : ClusterState
  outcome : AcquireOutcome
  reads : List (Option Nat)
deriving DecidableEq, Repr

/-- The `me.acquire(callback, priority)` method.  The body updates
`this.index` twice with the same value — `this.index = useIndex + 1`
clamped to `0`, then `this.index = ++useIndex >= N ? 0 : useIndex` — and
the second assignment is the one that persists; both are reproduced.  The
delegation `pool.acquire(function(err, client) {...})` passes no second
argument, so the member pool receives no priority (`none`), whatever the
caller supplied. -/
def acquire (st : ClusterState) (priority : Option Int) : AcquireResult :=
  if st.cluster.length = 0 then
    { st := st, outcome := .configError "No servers added to cluster yet", reads := [] }
  else
    let pw := (scanResult st).1
    let useIndex := useIndexFinal st
    let idxFirst : Int := useIndex + 1
    let idxFirst : Int := if idxFirst ≥ (st.cluster.length : Int) then 0 else idxFirst
    let idxSecond : Int := useIndex + 1
    let idxSecond : Int := if idxSecond ≥ (st.cluster.length : Int) then 0 else idxSecond
    { st := { st with index := idxSecond.toNat },
      outcome := .delegated useIndex none,
      reads := pw }

/-- `me.getClusterSize()`. -/
def getClusterSize (st : ClusterState) : Nat :=
  st.cluster.length

/-- `me.getPoolSize()`: fold of `count += pool.getPoolSize()` over the
members. -/
def getPoolSize (st : ClusterState) : Nat :=
  st.cluster.foldl (fun count pool => count + pool.poolSize) 0

/-- `me.availableObjectsCount()`: fold of
`count += pool.availableObjectsCount()` over the members. -/
def availableObjectsCount (st : ClusterState) : Nat :=
  st.cluster.foldl (fun count pool => count + pool.availableObjects) 0

/-- `me.waitingClientsCount()`: fold of
`count += pool.waitingClientsCount()` over the members. -/
def waitingClientsCount (st : ClusterState) : Nat :=
  st.cluster.foldl (fun count pool => count + pool.waitingClients) 0

/-- One operation the public surface offers on an existing cluster. -/
inductive Op where
  | add (create : FVal)
  | acquire (priority : Option Int)
deriving DecidableEq, Repr

/-- Apply one operation to a cluster created from `factory`. -/
def applyOp (factory : Obj) (st : ClusterState) : Op → ClusterState
  | .add c => (add factory st c).2
  | .acquire p => (acquire st p).st

/-- Run a sequence of operations on a freshly created cluster. -/
def runOps (factory : Obj) (ops : List Op) : ClusterState :=
  ops.foldl (applyOp factory) create

/-- Several independently created clusters, each stored with the factory
object it was created from. -/
abbrev World : Type := List (Obj × ClusterState)

/-- A `ClusterPool.create(factory)` call: appends a fresh cluster holding
its own `cluster` array and `index` cursor. -/
def worldCreate (w : World) (factory : Obj) : World :=
  w ++ [(factory, create)]

/-- Perform one `add` or `acquire` on the cluster at position `cid`; the
closure state of every other cluster is untouched. -/
def worldOp (w : World) (cid : Nat) (op : Op) : World :=
  match w[cid]? with
  | none => w
  | some (f, st) => w.set cid (f, applyOp f st op)

/-- Written from the words of the spec, for comparison with the code: the
index of the member with the global minimum waiting count, ties broken by
lowest original index. -/
def specLeastLoaded (w : List Nat) : Nat :=
  w.findIdx (fun v => w.min? == some v)

/-- A member with empty configuration, no resources and the given waiting
count, used for the concrete scenarios of the spec. -/
def memberW (wc : Nat) : Member :=
  { config := [], poolSize := 0, availableObjects := 0, waitingClients := wc }

/-- Scenario P2 of the spec: three members, waiting counts all zero,
cursor at 0. -/
def exP2 : ClusterState :=
  { cluster := [memberW 0, memberW 0, memberW 0], index := 0 }

/-- Scenario P3 of the spec: waiting counts `[5, 2, 2]`, cursor at 0. -/
def exP3 : ClusterState :=
  { cluster := [memberW 5, memberW 2, memberW 2], index := 0 }

/-- Member index an acquire delegated to, `-1` on the configuration
error. -/
def acquiredIdx (r : AcquireResult) : Int :=
  match r.outcome with
  | .delegated i _ => i
  | .configError _ => -1

/-- Member indices selected by `n` consecutive acquires (no priority),
starting from `st`. -/
def runSelections (st : ClusterState) : Nat → List Int
  | 0 => []
  | n + 1 =>
    let r := acquire st none
    acquiredIdx r :: runSelections r.st n

/-- A single-member cluster, used to exhibit the dropped priority. -/
def exSingle : ClusterState :=
  { cluster := [memberW 0], index := 0 }

/-- Two independently created clusters living side by side. -/
def exWorld : World :=
  [([], exP2), ([], exP3)]

/-- A factory shaped like the one in the tests of the repository. -/
def exFactory : Obj :=
  [("max", FVal.num 4), ("idleTimeoutMillis", FVal.num 1000), ("destroy", FVal.fn 0)]

/-- The waiting-count list has one entry per member. -/
lemma waitCounts_length (st : ClusterState) :
    (waitCounts st).length = st.cluster.length := by
  simp [waitCounts]

/-- The scan never changes the length of the `poolWaiting` array. -/
lemma scanLoop_fst_length (w : List Nat) (fuel : Nat) :
    ∀ (t : Nat) (pw : List (Option Nat)),
      ((scanLoop w fuel t pw).1).length = pw.length := by
  induction fuel with
  | zero => intro t pw; rfl
  | succ n ih =>
    intro t pw
    simp only [scanLoop]
    split
    · simp
    · rw [ih]
      simp

lemma getD_set_self {l : List (Option Nat)} {i : Nat} {v : Option Nat}
    (h : i < l.length) : (l.set i v).getD i none = v := by
  simp [List.getD_eq_getElem?_getD, List.getElem?_set_self h]

lemma getD_set_ne {l : List (Option Nat)} {i j : Nat} {v : Option Nat}
    (h : i ≠ j) : (l.set i v).getD j none = l.getD j none := by
  simp [List.getD_eq_getElem?_getD, List.getElem?_set_ne h]

/-- The wrap-around step `if (++tryIndex >= N) tryIndex = 0` is addition
modulo `N` for an in-range index. -/
lemma stepIdx_eq_mod {N t : Nat} (h : t < N) :
    (if t + 1 ≥ N then 0 else t + 1) = (t + 1) % N := by
  by_cases h1 : t + 1 ≥ N
  · have h2 : t + 1 = N := by omega
    simp [h1, h2, Nat.mod_self]
  · have h2 : (t + 1) % N = t + 1 := Nat.mod_eq_of_lt (by omega)
    simp [h1, h2]

/-- Adding a nonzero offset below `N` moves an in-range index somewhere
else: the scan visits pairwise distinct positions. -/
lemma add_mod_ne_self {N s d : Nat} (hs : s < N) (hd1 : 1 ≤ d) (hd2 : d < N) :
    (s + d) % N ≠ s := by
  intro h
  have h2 : s % N = (s + d) % N := by rw [h, Nat.mod_eq_of_lt hs]
  have h3 : N ∣ s + d - s := (Nat.modEq_iff_dvd' (Nat.le_add_right s d)).mp h2
  rw [Nat.add_sub_cancel_left] at h3
  have h4 := Nat.le_of_dvd (by omega) h3
  omega

/-- The recovery branch guard `typeof useIndex == -1` compares the string
produced by `typeof` with a number through `ToNumber`, which yields NaN on
it, so the guard never holds. -/
lemma recoveryCond_eq_false (st : ClusterState) : recoveryCond st = false := by
  have h : toNumberStr "number" = none := by decide
  unfold recoveryCond jsLooseEqStrNum jsTypeof
  rw [h]

/-- Since the recovery branch never fires, the final `useIndex` is the
post-fallback one. -/
lemma useIndexFinal_eq (st : ClusterState) :
    useIndexFinal st = useIndexAfterFallback st := by
  unfold useIndexFinal
  rw [recoveryCond_eq_false]
  simp

/-- Unfolding of `me.acquire` on a nonempty cluster: it delegates to the
selected member with no priority argument, stores the clamped successor of
the selected index as the new cursor, and its reads are the final
`poolWaiting` array. -/
lemma acquire_eq (st : ClusterState) (p : Option Int) (hN : ¬ st.cluster.length = 0) :
    acquire st p =
      { st := { st with index :=
          (if useIndexFinal st + 1 ≥ (st.cluster.length : Int) then 0
           else useIndexFinal st + 1).toNat },
        outcome := .delegated (useIndexFinal st) none,
        reads := (scanResult st).1 } := by
  unfold acquire
  rw [if_neg hN]

/-- When the first zero waiting count in scan order sits `k₀` steps past
the cursor, the loop stops there: `useIndex` is `(start + k₀) % N`, the
positions visited on the way hold the waiting counts read, and every other
position of `poolWaiting` is untouched. -/
lemma scanLoop_finds_zero (w : List Nat) :
    ∀ (k₀ fuel start : Nat) (pw : List (Option Nat)),
      start < w.length → k₀ < fuel → fuel ≤ w.length → pw.length = w.length →
      w.getD ((start + k₀) % w.length) 0 = 0 →
      (∀ j, j < k₀ → w.getD ((start + j) % w.length) 0 ≠ 0) →
      (scanLoop w fuel start pw).2 = some ((start + k₀) % w.length)
      ∧ (∀ k, k ≤ k₀ →
          (scanLoop w fuel start pw).1.getD ((start + k) % w.length) none
            = some (w.getD ((start + k) % w.length) 0))
      ∧ (∀ i, (∀ k, k ≤ k₀ → i ≠ (start + k) % w.length) →
          (scanLoop w fuel start pw).1.getD i none = pw.getD i none) := by
  intro k₀
  induction k₀ with
  | zero =>
    intro fuel start pw hs hk hf hpw hz hnz
    obtain ⟨f, rfl⟩ : ∃ f, fuel = f + 1 := ⟨fuel - 1, by omega⟩
    have hstart : (start + 0) % w.length = start := by
      rw [Nat.add_zero, Nat.mod_eq_of_lt hs]
    rw [hstart] at hz
    have hset : (pw.set start (some (w.getD start 0))).getD start none
        = some (w.getD start 0) := getD_set_self (by omega)
    have hcond : jsEqZero ((pw.set start (some (w.getD start 0))).getD start none) = true := by
      rw [hset, hz]; rfl
    simp only [scanLoop, hcond, if_true]
    refine ⟨by rw [hstart], ?_, ?_⟩
    · intro k hk2
      have hk0 : k = 0 := by omega
      subst hk0
      rw [hstart, hset]
    · intro i hi
      have hi0 : i ≠ start := by
        have h := hi 0 (by omega)
        rwa [hstart] at h
      exact getD_set_ne (Ne.symm hi0)
  | succ k ih =>
    intro fuel start pw hs hk hf hpw hz hnz
    obtain ⟨f, rfl⟩ : ∃ f, fuel = f + 1 := ⟨fuel - 1, by omega⟩
    have hN : 0 < w.length := by omega
    have hstart : (start + 0) % w.length = start := by
      rw [Nat.add_zero, Nat.mod_eq_of_lt hs]
    have hs0 : w.getD start 0 ≠ 0 := by
      have h := hnz 0 (by omega)
      rwa [hstart] at h
    have hset : (pw.set start (some (w.getD start 0))).getD start none
        = some (w.getD start 0) := getD_set_self (by omega)
    have hcond : jsEqZero ((pw.set start (some (w.getD start 0))).getD start none) = false := by
      rw [hset]
      simp only [jsEqZero]
      simpa using hs0
    simp only [scanLoop, hcond, Bool.false_eq_true, if_false]
    rw [stepIdx_eq_mod hs]
    have hs1 : (start + 1) % w.length < w.length := Nat.mod_lt _ hN
    have hrw : ∀ m : Nat, ((start + 1) % w.length + m) % w.length
        = (start + (m + 1)) % w.length := by
      intro m
      rw [Nat.mod_add_mod]
      congr 1
      omega
    obtain ⟨c1, c2, c3⟩ := ih f ((start + 1) % w.length)
      (pw.set start (some (w.getD start 0)))
      hs1 (by omega) (by omega) (by simp [hpw])
      (by rw [hrw]; exact hz)
      (by intro j hj; rw [hrw]; exact hnz (j + 1) (by omega))
    refine ⟨by rw [c1, hrw], ?_, ?_⟩
    · intro kk hkk
      by_cases hkk0 : kk = 0
      · subst hkk0
        have hne : ∀ k2, k2 ≤ k → start ≠ ((start + 1) % w.length + k2) % w.length := by
          intro k2 hk2
          rw [hrw]
          exact (add_mod_ne_self hs (by omega) (by omega)).symm
        rw [hstart, c3 start hne, hset]
      · obtain ⟨kk2, rfl⟩ : ∃ kk2, kk = kk2 + 1 := ⟨kk - 1, by omega⟩
        have h := c2 kk2 (by omega)
        rw [hrw] at h
        exact h
    · intro i hi
      have hi0 : i ≠ start := by
        have h := hi 0 (by omega)
        rwa [hstart] at h
      have hi1 : ∀ k2, k2 ≤ k → i ≠ ((start + 1) % w.length + k2) % w.length := by
        intro k2 hk2
        rw [hrw]
        exact hi (k2 + 1) (by omega)
      rw [c3 i hi1, getD_set_ne (Ne.symm hi0)]

/-- When every waiting count is nonzero the loop runs out of budget:
`useIndex` stays `undefined` and `poolWaiting` holds the waiting count of
every position the scan visited. -/
lemma scanLoop_no_zero (w : List Nat)
    (hnz : ∀ i, i < w.length → w.getD i 0 ≠ 0) :
    ∀ (fuel start : Nat) (pw : List (Option Nat)),
      start < w.length → fuel ≤ w.length → pw.length = w.length →
      (scanLoop w fuel start pw).2 = none
      ∧ ∀ i, i < w.length →
          (scanLoop w fuel start pw).1.getD i none
            = if ∃ j, j < fuel ∧ i = (start + j) % w.length
              then some (w.getD i 0) else pw.getD i none := by
  intro fuel
  induction fuel with
  | zero =>
    intro start pw hs hf hpw
    refine ⟨rfl, ?_⟩
    intro i hi
    simp [scanLoop]
  | succ f ih =>
    intro start pw hs hf hpw
    have hN : 0 < w.length := by omega
    have hstart : (start + 0) % w.length = start := by
      rw [Nat.add_zero, Nat.mod_eq_of_lt hs]
    have hs0 : w.getD start 0 ≠ 0 := hnz start hs
    have hset : (pw.set start (some (w.getD start 0))).getD start none
        = some (w.getD start 0) := getD_set_self (by omega)
    have hcond : jsEqZero ((pw.set start (some (w.getD start 0))).getD start none) = false := by
      rw [hset]
      simp only [jsEqZero]
      simpa using hs0
    simp only [scanLoop, hcond, Bool.false_eq_true, if_false]
    rw [stepIdx_eq_mod hs]
    have hs1 : (start + 1) % w.length < w.length := Nat.mod_lt _ hN
    have hrw : ∀ m : Nat, ((start + 1) % w.length + m) % w.length
        = (start + (m + 1)) % w.length := by
      intro m
      rw [Nat.mod_add_mod]
      congr 1
      omega
    obtain ⟨c1, c2⟩ := ih ((start + 1) % w.length)
      (pw.set start (some (w.getD start 0))) hs1 (by omega) (by simp [hpw])
    refine ⟨c1, ?_⟩
    intro i hi
    rw [c2 i hi]
    by_cases hi0 : i = start
    · -- the position written by this iteration is never revisited
      have hA : ¬ ∃ j, j < f ∧ i = ((start + 1) % w.length + j) % w.length := by
        rintro ⟨j, hj, hje⟩
        rw [hrw, hi0] at hje
        exact (add_mod_ne_self hs (by omega) (by omega)) hje.symm
      have hB : ∃ j, j < f + 1 ∧ i = (start + j) % w.length :=
        ⟨0, by omega, by rw [hstart]; exact hi0⟩
      rw [if_neg hA, if_pos hB, hi0, hset]
    · have hAB : (∃ j, j < f ∧ i = ((start + 1) % w.length + j) % w.length)
          ↔ (∃ j, j < f + 1 ∧ i = (start + j) % w.length) := by
        constructor
        · rintro ⟨j, hj, hje⟩
          rw [hrw] at hje
          exact ⟨j + 1, by omega, hje⟩
        · rintro ⟨j, hj, hje⟩
          have hj0 : j ≠ 0 := by
            intro h0
            subst h0
            rw [hstart] at hje
            exact hi0 hje
          refine ⟨j - 1, by omega, ?_⟩
          rw [hrw]
          have hj1 : j - 1 + 1 = j := by omega
          rw [hj1]
          exact hje
      by_cases hA : ∃ j, j < f ∧ i = ((start + 1) % w.length + j) % w.length
      · rw [if_pos hA, if_pos (hAB.mp hA)]
      · rw [if_neg hA, if_neg (fun hB => hA (hAB.mpr hB)), getD_set_ne (Ne.symm hi0)]

/-- A position of `poolWaiting` never assigned reads back as a hole. -/
lemma replicate_getD_none (n i : Nat) :
    (List.replicate n (none : Option Nat)).getD i none = none := by
  rw [List.getD_eq_getElem?_getD, List.getElem?_replicate]
  split <;> rfl

/-- Scan outcome on the full acquire state when the member `k₀` steps past
the cursor is the first one in scan order with waiting count zero. -/
lemma scanResult_finds_zero (st : ClusterState) (k₀ : Nat)
    (hc : st.index < st.cluster.length) (hk : k₀ < st.cluster.length)
    (hz : (waitCounts st).getD ((st.index + k₀) % st.cluster.length) 0 = 0)
    (hnz : ∀ j, j < k₀ →
      (waitCounts st).getD ((st.index + j) % st.cluster.length) 0 ≠ 0) :
    (scanResult st).2 = some ((st.index + k₀) % st.cluster.length)
    ∧ (∀ k, k ≤ k₀ →
        (scanResult st).1.getD ((st.index + k) % st.cluster.length) none
          = some ((waitCounts st).getD ((st.index + k) % st.cluster.length) 0))
    ∧ (∀ i, (∀ k, k ≤ k₀ → i ≠ (st.index + k) % st.cluster.length) →
        (scanResult st).1.getD i none = none) := by
  have hlen := waitCounts_length st
  unfold scanResult
  obtain ⟨c1, c2, c3⟩ := scanLoop_finds_zero (waitCounts st) k₀ st.cluster.length st.index
    (List.replicate st.cluster.length none)
    (by rw [hlen]; exact hc) hk (by rw [hlen]) (by simp [hlen])
    (by rw [hlen]; exact hz) (by intro j hj; rw [hlen]; exact hnz j hj)
  rw [hlen] at c1 c2 c3
  refine ⟨c1, c2, ?_⟩
  intro i hi
  rw [c3 i hi, replicate_getD_none]

/-- Scan outcome on the full acquire state when every member has a nonzero
waiting count: `useIndex` stays `undefined` and `poolWaiting` is the fully
populated waiting-count array. -/
lemma scanResult_no_zero (st : ClusterState) (hN : 0 < st.cluster.length)
    (hc : st.index < st.cluster.length)
    (hnz : ∀ i, i < st.cluster.length → (waitCounts st).getD i 0 ≠ 0) :
    (scanResult st).2 = none ∧ (scanResult st).1 = (waitCounts st).map some := by
  have hlen := waitCounts_length st
  have hres : ((scanResult st).1).length = st.cluster.length := by
    unfold scanResult
    rw [scanLoop_fst_length]
    simp
  obtain ⟨c1, c2⟩ := scanLoop_no_zero (waitCounts st)
    (by intro i hi; exact hnz i (by rwa [hlen] at hi))
    st.cluster.length st.index (List.replicate st.cluster.length none)
    (by rw [hlen]; exact hc) (by rw [hlen]) (by simp [hlen])
  rw [hlen] at c2
  have hsc : scanLoop (waitCounts st) st.cluster.length st.index
      (List.replicate st.cluster.length none) = scanResult st := rfl
  rw [hsc] at c1 c2
  refine ⟨c1, ?_⟩
  apply List.ext_getElem?
  intro i
  rw [List.getElem?_map]
  by_cases hi : i < st.cluster.length
  · have hcov : ∃ j, j < st.cluster.length ∧ i = (st.index + j) % st.cluster.length := by
      refine ⟨(i + st.cluster.length - st.index) % st.cluster.length, Nat.mod_lt _ hN, ?_⟩
      rw [Nat.add_mod_mod]
      have he : st.index + (i + st.cluster.length - st.index) = i + st.cluster.length := by
        omega
      rw [he, Nat.add_mod_right, Nat.mod_eq_of_lt hi]
    have h := c2 i hi
    rw [if_pos hcov] at h
    have hib : i < ((scanResult st).1).length := by omega
    rw [List.getD_eq_getElem?_getD, List.getElem?_eq_getElem hib] at h
    have hiw : i < (waitCounts st).length := by omega
    rw [List.getElem?_eq_getElem hib, List.getElem?_eq_getElem hiw]
    have hwv : (waitCounts st).getD i 0 = (waitCounts st)[i] := by
      rw [List.getD_eq_getElem?_getD, List.getElem?_eq_getElem hiw]
      rfl
    rw [hwv] at h
    simp only [Option.getD_some] at h
    rw [h]
    rfl
  · have h1 : ((scanResult st).1)[i]? = none := by
      rw [List.getElem?_eq_none]
      omega
    have h2 : (waitCounts st)[i]? = none := by
      rw [List.getElem?_eq_none]
      omega
    rw [h1, h2]
    rfl

lemma usMinStep_some (m a : Nat) : usMinStep (some m) (some a) = some (min m a) := by
  simp only [usMinStep]
  by_cases h : a < m
  · rw [if_pos h]
    congr 1
    omega
  · rw [if_neg h]
    congr 1
    omega

/-- Folding the `_.min` step over numbers only is the fold of `Nat.min`. -/
lemma usMin_go (t : List Nat) :
    ∀ m : Nat, (t.map some).foldl usMinStep (some m) = some (t.foldl min m) := by
  induction t with
  | nil => intro m; rfl
  | cons a t2 ih =>
    intro m
    simp only [List.map, List.foldl]
    rw [usMinStep_some, ih]

/-- On the fully populated `poolWaiting` array, `_.min` is the list
minimum. -/
lemma usMin_map_some (w : List Nat) : usMin (w.map some) = w.min? := by
  cases w with
  | nil => rfl
  | cons a t =>
    show (t.map some).foldl usMinStep (usMinStep none (some a)) = (a :: t).min?
    rw [List.min?_cons']
    exact usMin_go t a

/-- Strict equality against a number, tested elementwise over the mapped
array, is the elementwise number test. -/
lemma findIdx_map_some (w : List Nat) (m : Nat) :
    (w.map some).findIdx (fun x =>
      match x, some m with
      | some a, some b => a == b
      | _, _ => false) = w.findIdx (fun v => v == m) := by
  induction w with
  | nil => rfl
  | cons a t ih =>
    simp only [List.map, List.findIdx_cons]
    rw [ih]

/-- Two elementwise-equal tests find the same index. -/
lemma findIdx_congr {p q : Nat → Bool} (h : ∀ v, p v = q v) (w : List Nat) :
    w.findIdx p = w.findIdx q := by
  induction w with
  | nil => rfl
  | cons a t ih => simp only [List.findIdx_cons, h a, ih]

/-- On the fully populated `poolWaiting` array, `_.indexOf` for a value
that occurs is its first index. -/
lemma usIndexOf_map_some (w : List Nat) (m : Nat) (hm : m ∈ w) :
    usIndexOf (w.map some) (some m) = (w.findIdx (fun v => v == m) : Int) := by
  unfold usIndexOf
  rw [findIdx_map_some]
  have hlt : w.findIdx (fun v => v == m) < w.length :=
    List.findIdx_lt_length_of_exists ⟨m, hm, by simp⟩
  rw [List.length_map]
  rw [if_pos hlt]

lemma beq_comm_nat (a b : Nat) : (a == b) = (b == a) := by
  by_cases h : a = b
  · subst h; rfl
  · have h1 : (a == b) = false := by simpa using h
    have h2 : (b == a) = false := by simpa using fun e => h e.symm
    rw [h1, h2]

/-- The fallback expression computes the index the spec describes: the
first index holding the global minimum waiting count. -/
lemma usIndexOf_usMin_eq_spec (w : List Nat) (hw : w ≠ []) :
    usIndexOf (w.map some) (usMin (w.map some)) = (specLeastLoaded w : Int) := by
  obtain ⟨m, hm⟩ : ∃ m, w.min? = some m := by
    cases w with
    | nil => exact absurd rfl hw
    | cons a t => exact ⟨t.foldl min a, List.min?_cons'⟩
  have hmem : m ∈ w :=
    List.min?_mem (by
      intro a b
      rcases Nat.le_total a b with h | h
      · exact Or.inl (min_eq_left h)
      · exact Or.inr (min_eq_right h)) hm
  rw [usMin_map_some, hm, usIndexOf_map_some w m hmem]
  unfold specLeastLoaded
  congr 1
  apply findIdx_congr
  intro v
  rw [hm]
  show (v == m) = (some m == some v)
  rw [show ((some m == some v) = (m == v)) from rfl, beq_comm_nat]

/-- If the loop assigned `useIndex`, the fallback keeps it. -/
lemma useIndexAfterFallback_of_some {st : ClusterState} {i : Nat}
    (h : (scanResult st).2 = some i) : useIndexAfterFallback st = (i : Int) := by
  unfold useIndexAfterFallback
  rcases hsr : scanResult st with ⟨pw, u⟩
  rw [hsr] at h
  simp only at h
  subst h
  rfl

/-- If the loop left `useIndex` undefined, the fallback computes the
underscore expression over the final `poolWaiting`. -/
lemma useIndexAfterFallback_of_none {st : ClusterState}
    (h : (scanResult st).2 = none) :
    useIndexAfterFallback st = usIndexOf (scanResult st).1 (usMin (scanResult st).1) := by
  unfold useIndexAfterFallback
  rcases hsr : scanResult st with ⟨pw, u⟩
  rw [hsr] at h
  simp only at h
  subst h
  rfl

/-- Any index the loop assigns is a `tryIndex`, which stays below `N` when
the cursor starts below `N`. -/
lemma scanLoop_some_lt (w : List Nat) :
    ∀ (fuel start : Nat) (pw : List (Option Nat)) (i : Nat),
      start < w.length → (scanLoop w fuel start pw).2 = some i → i < w.length := by
  intro fuel
  induction fuel with
  | zero =>
    intro start pw i hs h
    simp [scanLoop] at h
  | succ f ih =>
    intro start pw i hs h
    simp only [scanLoop] at h
    split at h
    · simp at h
      omega
    · refine ih _ _ i ?_ h
      split
      · omega
      · omega

/-- `_.indexOf` never returns anything below `-1`. -/
lemma usIndexOf_ge (pw : List (Option Nat)) (v : Option Nat) :
    -1 ≤ usIndexOf pw v := by
  simp only [usIndexOf]
  split <;> omega

/-- The final `useIndex` is at least `-1` on every state. -/
lemma useIndexFinal_ge (st : ClusterState) : -1 ≤ useIndexFinal st := by
  rw [useIndexFinal_eq]
  unfold useIndexAfterFallback
  rcases scanResult st with ⟨pw, u⟩
  cases u with
  | none =>
    dsimp only
    exact usIndexOf_ge pw (usMin pw)
  | some i =>
    dsimp only
    omega

/-- On a state with an in-range cursor the selected index is defined and
in `[0, N)`. -/
lemma useIndexFinal_bounds (st : ClusterState)
    (hN : 0 < st.cluster.length) (hc : st.index < st.cluster.length) :
    0 ≤ useIndexFinal st ∧ useIndexFinal st < (st.cluster.length : Int) := by
  rw [useIndexFinal_eq]
  by_cases hz : ∃ i, i < st.cluster.length ∧ (waitCounts st).getD i 0 = 0
  · -- some member in range has waiting count zero: the scan stops at the
    -- first one in scan order
    obtain ⟨i, hi, hzi⟩ := hz
    have hp1 : (waitCounts st).getD
        ((st.index + ((i + st.cluster.length - st.index) % st.cluster.length))
          % st.cluster.length) 0 = 0 := by
      rw [Nat.add_mod_mod]
      have he : st.index + (i + st.cluster.length - st.index) = i + st.cluster.length := by
        omega
      rw [he, Nat.add_mod_right, Nat.mod_eq_of_lt hi]
      exact hzi
    have hPex : ∃ k, (waitCounts st).getD
        ((st.index + k) % st.cluster.length) 0 = 0 :=
      ⟨(i + st.cluster.length - st.index) % st.cluster.length, hp1⟩
    have hfind_le : Nat.find hPex ≤ (i + st.cluster.length - st.index) % st.cluster.length :=
      Nat.find_min' hPex hp1
    have hk0 : Nat.find hPex < st.cluster.length :=
      lt_of_le_of_lt hfind_le (Nat.mod_lt _ hN)
    obtain ⟨c1, _, _⟩ := scanResult_finds_zero st (Nat.find hPex) hc hk0
      (Nat.find_spec hPex) (fun j hj => Nat.find_min hPex hj)
    rw [useIndexAfterFallback_of_some c1]
    have hb := Nat.mod_lt (st.index + Nat.find hPex) hN
    omega
  · push_neg at hz
    obtain ⟨c1, c2⟩ := scanResult_no_zero st hN hc hz
    rw [useIndexAfterFallback_of_none c1, c2]
    have hw : waitCounts st ≠ [] := by
      intro h
      have hl := waitCounts_length st
      rw [h] at hl
      simp at hl
      omega
    rw [usIndexOf_usMin_eq_spec _ hw]
    have hfi : specLeastLoaded (waitCounts st) < (waitCounts st).length := by
      obtain ⟨m, hm⟩ : ∃ m, (waitCounts st).min? = some m := by
        rcases hww : waitCounts st with _ | ⟨a, t⟩
        · exact absurd hww hw
        · exact ⟨t.foldl min a, List.min?_cons'⟩
      have hmem : m ∈ waitCounts st :=
        List.min?_mem (by
          intro a b
          rcases Nat.le_total a b with h | h
          · exact Or.inl (min_eq_left h)
          · exact Or.inr (min_eq_right h)) hm
      unfold specLeastLoaded
      exact List.findIdx_lt_length_of_exists ⟨m, hmem, by rw [hm]; simp⟩
    have hl := waitCounts_length st
    omega

/-- Whatever the state, an acquire on a nonempty cluster stores a cursor
below the member count: the stored value is the selected index plus one,
clamped to `0` at the boundary. -/
lemma acquire_index_lt (st : ClusterState) (p : Option Int)
    (hN : 0 < st.cluster.length) :
    (acquire st p).st.index < st.cluster.length := by
  rw [acquire_eq st p (by omega)]
  have hge := useIndexFinal_ge st
  dsimp only
  split
  · simpa using hN
  · omega

/-- With an in-range cursor, the stored cursor is the selected index plus
one, modulo the member count. -/
lemma acquire_index_eq (st : ClusterState) (p : Option Int)
    (hN : 0 < st.cluster.length) (hc : st.index < st.cluster.length) :
    (acquire st p).st.index
      = ((useIndexFinal st).toNat + 1) % st.cluster.length := by
  rw [acquire_eq st p (by omega)]
  obtain ⟨h0, h1⟩ := useIndexFinal_bounds st hN hc
  dsimp only
  split
  · have he : (useIndexFinal st).toNat + 1 = st.cluster.length := by omega
    rw [he, Nat.mod_self]
    rfl
  · rw [Nat.mod_eq_of_lt (by omega)]
    omega

/-- An acquire never changes the member list. -/
lemma acquire_cluster_eq (st : ClusterState) (p : Option Int) :
    (acquire st p).st.cluster = st.cluster := by
  unfold acquire
  split
  · rfl
  · rfl

/-- Member counters and configurations play no role in the cursor
invariant: one operation preserves it. -/
lemma applyOp_inv (factory : Obj) (st : ClusterState) (op : Op)
    (h : st.index < st.cluster.length ∨ (st.cluster.length = 0 ∧ st.index = 0)) :
    (applyOp factory st op).index < (applyOp factory st op).cluster.length
      ∨ ((applyOp factory st op).cluster.length = 0
          ∧ (applyOp factory st op).index = 0) := by
  cases op with
  | add c =>
    simp only [applyOp, add]
    left
    simp only [List.length_append, List.length_cons, List.length_nil]
    omega
  | acquire p =>
    by_cases hN : st.cluster.length = 0
    · simp only [applyOp]
      unfold acquire
      rw [if_pos hN]
      exact h
    · left
      simp only [applyOp]
      rw [acquire_cluster_eq]
      exact acquire_index_lt st p (by omega)

/-- Every state reachable from a fresh cluster satisfies the cursor
invariant. -/
lemma runOps_inv (factory : Obj) (ops : List Op) :
    (runOps factory ops).index < (runOps factory ops).cluster.length
      ∨ ((runOps factory ops).cluster.length = 0 ∧ (runOps factory ops).index = 0) := by
  unfold runOps
  have hgen : ∀ (l : List Op) (st : ClusterState),
      (st.index < st.cluster.length ∨ (st.cluster.length = 0 ∧ st.index = 0)) →
      ((l.foldl (applyOp factory) st).index < (l.foldl (applyOp factory) st).cluster.length
        ∨ ((l.foldl (applyOp factory) st).cluster.length = 0
            ∧ (l.foldl (applyOp factory) st).index = 0)) := by
    intro l
    induction l with
    | nil => intro st h; exact h
    | cons o t ih =>
      intro st h
      exact ih (applyOp factory st o) (applyOp_inv factory st o h)
  exact hgen ops create (Or.inr ⟨rfl, rfl⟩)

/-- An operation addressed at one cluster leaves every other cluster of
the world untouched. -/
lemma worldOp_frame (w : World) (cid : Nat) (op : Op) (j : Nat) (hj : j ≠ cid) :
    (worldOp w cid op)[j]? = w[j]? := by
  unfold worldOp
  cases h : w[cid]? with
  | none => rfl
  | some e =>
    cases e with
    | mk f st => exact List.getElem?_set_ne (fun he => hj he.symm)

/-- The running-total fold of the aggregation reads is the sum of the
per-member samples. -/
lemma foldl_add_map (f : Member → Nat) (l : List Member) :
    ∀ a : Nat, l.foldl (fun count pool => count + f pool) a = a + (l.map f).sum := by
  induction l with
  | nil => intro a; simp
  | cons x t ih =>
    intro a
    simp only [List.foldl, List.map, List.sum_cons]
    rw [ih]
    omega

/-- Lookup over an appended object: the earlier entries win. -/
lemma lookup_append (l1 l2 : Obj) (k : String) :
    (l1 ++ l2).lookup k
      = match l1.lookup k with
        | some v => some v
        | none => l2.lookup k := by
  induction l1 with
  | nil => simp
  | cons p t ih =>
    cases p with
    | mk a b =>
      rw [List.cons_append, List.lookup_cons, List.lookup_cons]
      cases hak : (k == a) with
      | true => rfl
      | false => exact ih

/-- Setting an absent key appends the binding. -/
lemma objSet_of_lookup_none {o : Obj} {k : String} {v : FVal}
    (h : o.lookup k = none) : objSet o k v = o ++ [(k, v)] := by
  unfold objSet
  rw [h]
  rfl

/-- The overwrite pass of `objSet` leaves every other key alone. -/
lemma lookup_map_setKey (o : Obj) (k k2 : String) (v : FVal) (h : k2 ≠ k) :
    (o.map (fun p => if p.1 = k then (k, v) else p)).lookup k2 = o.lookup k2 := by
  induction o with
  | nil => rfl
  | cons p t ih =>
    cases p with
    | mk a b =>
      simp only [List.map]
      by_cases hak : a = k
      · rw [if_pos hak, List.lookup_cons, List.lookup_cons]
        have h2 : (k2 == a) = false := by
          have hne : k2 ≠ a := by rw [hak]; exact h
          simpa using hne
        have h3 : (k2 == k) = false := by simpa using h
        rw [h2, h3]
        exact ih
      · rw [if_neg hak, List.lookup_cons, List.lookup_cons]
        cases hk2a : (k2 == a) with
        | true => rfl
        | false => exact ih

/-- Setting key `k` leaves the value found under any other key
unchanged. -/
lemma objSet_lookup_ne (o : Obj) (k k2 : String) (v : FVal) (h : k2 ≠ k) :
    (objSet o k v).lookup k2 = o.lookup k2 := by
  unfold objSet
  split
  · exact lookup_map_setKey o k k2 v h
  · rw [lookup_append]
    cases ho : o.lookup k2 with
    | some b => rfl
    | none =>
      rw [List.lookup_cons]
      have h3 : (k2 == k) = false := by simpa using h
      rw [h3]
      rfl

/-- After `objSet` the key holds the written value. -/
lemma objSet_lookup_self (o : Obj) (k : String) (v : FVal) :
    (objSet o k v).lookup k = some v := by
  unfold objSet
  split
  · rename_i hsome
    induction o with
    | nil => simp at hsome
    | cons p t ih =>
      cases p with
      | mk a b =>
        simp only [List.map]
        by_cases hak : a = k
        · rw [if_pos hak, List.lookup_cons]
          have hkk : (k == k) = true := by simp
          rw [hkk]
        · rw [if_neg hak, List.lookup_cons]
          have h2 : (k == a) = false := by
            simpa using fun e => hak e.symm
          rw [h2]
          apply ih
          rw [List.lookup_cons, h2] at hsome
          exact hsome
  · rename_i hnone
    rw [lookup_append]
    have h0 : o.lookup k = none := by
      cases hlk : o.lookup k with
      | none => rfl
      | some b =>
        rw [hlk] at hnone
        simp at hnone
    rw [h0, List.lookup_cons]
    have hkk : (k == k) = true := by simp
    rw [hkk]

/-- Copying bindings with pairwise distinct keys, all fresh for the
destination, appends them in order. -/
lemma copyInto_fresh : ∀ (src dst : Obj),
    (∀ p ∈ src, dst.lookup p.1 = none) → (src.map Prod.fst).Nodup →
    copyInto dst src = dst ++ src := by
  intro src
  induction src with
  | nil =>
    intro dst h1 h2
    simp [copyInto]
  | cons p t ih =>
    intro dst h1 h2
    cases p with
    | mk a b =>
      have hd : dst.lookup a = none := h1 (a, b) (List.mem_cons_self _ _)
      have hfresh : ∀ q ∈ t, (dst ++ [(a, b)]).lookup q.1 = none := by
        intro q hq
        rw [lookup_append, h1 q (List.mem_cons_of_mem _ hq), List.lookup_cons]
        have hnotin : a ∉ t.map Prod.fst := by
          simp only [List.map] at h2
          exact (List.nodup_cons.mp h2).1
        have hne : q.1 ≠ a := by
          intro he
          exact hnotin (he ▸ List.mem_map_of_mem Prod.fst hq)
        have hqa : (q.1 == a) = false := by simpa using hne
        rw [hqa]
        rfl
      have hnd : (t.map Prod.fst).Nodup := by
        simp only [List.map] at h2
        exact (List.nodup_cons.mp h2).2
      calc copyInto dst ((a, b) :: t)
          = copyInto (objSet dst a b) t := rfl
        _ = copyInto (dst ++ [(a, b)]) t := by rw [objSet_of_lookup_none hd]
        _ = (dst ++ [(a, b)]) ++ t := ih (dst ++ [(a, b)]) hfresh hnd
        _ = dst ++ (a, b) :: t := by simp

/-- Copying a duplicate-free object into a fresh one reproduces it. -/
lemma copyInto_nil (src : Obj) (h : (src.map Prod.fst).Nodup) :
    copyInto [] src = src := by
  have hc := copyInto_fresh src [] (by intro p hp; rfl) h
  simpa using hc

/-- The `pool_factory` object holds the supplied producer under
`create`. -/
lemma mkPoolFactory_lookup_create (factory : Obj) (c : FVal) :
    (mkPoolFactory factory c).lookup "create" = some c :=
  objSet_lookup_self _ _ _

/-- The `pool_factory` object agrees with the factory on every other
key. -/
lemma mkPoolFactory_lookup_ne (factory : Obj) (c : FVal) (k : String)
    (hk : k ≠ "create") (h : (factory.map Prod.fst).Nodup) :
    (mkPoolFactory factory c).lookup k = factory.lookup k := by
  unfold mkPoolFactory
  rw [objSet_lookup_ne _ _ _ _ hk, copyInto_nil factory h]

/-- C1: every acquire on a cluster with an in-range cursor and a member
with waiting count zero within reach performs the circular scan from the
cursor, visiting `(Cursor + k) mod N` and reading that member waiting
count, and selects the first member found with waiting count zero (`k₀`
names the first offset whose member is idle); in particular with three
idle members and cursor 0, four consecutive acquires select 0, 1, 2, 0. -/
theorem C1_first_idle_selected :
    (∀ (st : ClusterState) (prio : Option Int) (k₀ : Nat),
      st.index < st.cluster.length →
      k₀ < st.cluster.length →
      (waitCounts st).getD ((st.index + k₀) % st.cluster.length) 0 = 0 →
      (∀ j, j < k₀ →
        (waitCounts st).getD ((st.index + j) % st.cluster.length) 0 ≠ 0) →
      (acquire st prio).outcome
          = AcquireOutcome.delegated
              (((st.index + k₀) % st.cluster.length : Nat) : Int) none
      ∧ (∀ k, k ≤ k₀ →
          (acquire st prio).reads.getD ((st.index + k) % st.cluster.length) none
            = some ((waitCounts st).getD ((st.index + k) % st.cluster.length) 0))
      ∧ (∀ i, (∀ k, k ≤ k₀ → i ≠ (st.index + k) % st.cluster.length) →
          (acquire st prio).reads.getD i none = none))
    ∧ runSelections exP2 4 = [0, 1, 2, 0] := by
  constructor
  · intro st prio k₀ hc hk hz hnz
    obtain ⟨c1, c2, c3⟩ := scanResult_finds_zero st k₀ hc hk hz hnz
    have hu : useIndexFinal st
        = (((st.index + k₀) % st.cluster.length : Nat) : Int) := by
      rw [useIndexFinal_eq]
      exact useIndexAfterFallback_of_some c1
    rw [acquire_eq st prio (by omega)]
    dsimp only
    exact ⟨by rw [hu], c2, c3⟩
  · decide

/-- Witness for C1: scenario P2, where the idle member sits right at the
cursor. -/
theorem C1_witness :
    (acquire exP2 none).outcome = AcquireOutcome.delegated 0 none :=
  (C1_first_idle_selected.1 exP2 none 0 (by decide) (by decide) (by decide)
    (by intro j hj; omega)).1

/-- C2: when every member has a nonzero waiting count the acquire selects
the member with the global minimum waiting count, ties broken by lowest
original index, independently of the cursor; in particular with waiting
counts `[5, 2, 2]` and cursor 0 the selected index is 1. -/
theorem C2_least_loaded_fallback :
    (∀ (st : ClusterState) (prio : Option Int),
      0 < st.cluster.length →
      st.index < st.cluster.length →
      (∀ i, i < st.cluster.length → (waitCounts st).getD i 0 ≠ 0) →
      (acquire st prio).outcome
        = AcquireOutcome.delegated ((specLeastLoaded (waitCounts st) : Nat) : Int) none)
    ∧ acquiredIdx (acquire exP3 none) = 1 := by
  constructor
  · intro st prio hN hc hnz
    obtain ⟨c1, c2⟩ := scanResult_no_zero st hN hc hnz
    have hw : waitCounts st ≠ [] := by
      have hl := waitCounts_length st
      intro h
      rw [h] at hl
      simp at hl
      omega
    have hu : useIndexFinal st = (specLeastLoaded (waitCounts st) : Int) := by
      rw [useIndexFinal_eq, useIndexAfterFallback_of_none c1, c2,
        usIndexOf_usMin_eq_spec _ hw]
    rw [acquire_eq st prio (by omega)]
    dsimp only
    rw [hu]
  · decide

/-- Witness for C2: scenario P3. -/
theorem C2_witness :
    (acquire exP3 none).outcome = AcquireOutcome.delegated 1 none :=
  C2_least_loaded_fallback.1 exP3 none (by decide) (by decide) (by decide)

/-- C3: every acquire on a nonempty cluster with an in-range cursor
delegates to the selected index and stores `(selected + 1) mod N` as the
new cursor. -/
theorem C3_cursor_is_succ_mod (st : ClusterState) (p : Option Int)
    (hN : 0 < st.cluster.length) (hc : st.index < st.cluster.length) :
    (acquire st p).outcome = AcquireOutcome.delegated (useIndexFinal st) none
    ∧ (acquire st p).st.index
        = ((useIndexFinal st).toNat + 1) % st.cluster.length := by
  constructor
  · rw [acquire_eq st p (by omega)]
  · exact acquire_index_eq st p hN hc

/-- Witness for C3: scenario P3 selects index 1 and stores cursor 2. -/
theorem C3_witness : (acquire exP3 none).st.index = 2 := by
  have h := (C3_cursor_is_succ_mod exP3 none (by decide) (by decide)).2
  rw [h]
  decide

/-- C4: an acquire on a cluster with zero members hands the configuration
error to the callback, reads no waiting count, delegates to no member
pool, and leaves the cursor and member list unchanged. -/
theorem C4_zero_members_config_error (st : ClusterState) (p : Option Int)
    (h : st.cluster.length = 0) :
    acquire st p
      = { st := st,
          outcome := AcquireOutcome.configError "No servers added to cluster yet",
          reads := [] } := by
  unfold acquire
  rw [if_pos h]

/-- Witness for C4: a freshly created cluster. -/
theorem C4_witness :
    create.cluster.length = 0
    ∧ acquire create none
      = { st := create,
          outcome := AcquireOutcome.configError "No servers added to cluster yet",
          reads := [] } :=
  ⟨rfl, C4_zero_members_config_error create none rfl⟩

/-- C5 (code behavior at the failing input): the caller passes priority 5
on a one-member cluster, but the member pool acquire receives no priority
argument at all — the source calls `pool.acquire(callback)` and never
forwards the second parameter. -/
theorem C5_priority_dropped :
    (acquire exSingle (some 5)).outcome = AcquireOutcome.delegated 0 none
    ∧ (acquire exSingle (some 5)).outcome ≠ AcquireOutcome.delegated 0 (some 5) := by
  decide

/-- C6: the cursor invariant `0 ≤ Cursor < N` holds after every operation
sequence from a fresh cluster whenever `N ≥ 1` (`Cursor` is a natural
number here, so only the upper bound is substantive); `add` appends one
member without changing the cursor; and any acquire on a nonempty cluster
stores a cursor in `[0, N)`. -/
theorem C6_cursor_invariant :
    (∀ (factory : Obj) (ops : List Op),
        0 < (runOps factory ops).cluster.length →
        (runOps factory ops).index < (runOps factory ops).cluster.length)
    ∧ (∀ (factory : Obj) (st : ClusterState) (c : FVal),
        (add factory st c).2.cluster
            = st.cluster ++ [PoolModule_Pool (mkPoolFactory factory c)]
          ∧ (add factory st c).2.index = st.index)
    ∧ (∀ (st : ClusterState) (p : Option Int),
        0 < st.cluster.length →
        (acquire st p).st.index < st.cluster.length) := by
  refine ⟨?_, ?_, ?_⟩
  · intro factory ops hN
    rcases runOps_inv factory ops with h | h
    · exact h
    · omega
  · intro factory st c
    exact ⟨rfl, rfl⟩
  · intro st p hN
    exact acquire_index_lt st p hN

/-- Witness for C6: one add followed by one acquire. -/
theorem C6_witness :
    (runOps [] [Op.add (FVal.fn 0), Op.acquire none]).index
      < (runOps [] [Op.add (FVal.fn 0), Op.acquire none]).cluster.length :=
  C6_cursor_invariant.1 [] [Op.add (FVal.fn 0), Op.acquire none] (by decide)

/-- C7: `getClusterSize` returns the member count and each aggregate is
exactly the sum of the per-member samples taken at that instant — the
reads are folds over the current member list, with no cached state. -/
theorem C7_aggregation_sums (st : ClusterState) :
    getClusterSize st = st.cluster.length
    ∧ getPoolSize st = (st.cluster.map Member.poolSize).sum
    ∧ availableObjectsCount st = (st.cluster.map Member.availableObjects).sum
    ∧ waitingClientsCount st = (st.cluster.map Member.waitingClients).sum := by
  refine ⟨rfl, ?_, ?_, ?_⟩
  · unfold getPoolSize
    rw [foldl_add_map]
    simp
  · unfold availableObjectsCount
    rw [foldl_add_map]
    simp
  · unfold waitingClientsCount
    rw [foldl_add_map]
    simp

/-- C8: an add or acquire on one cluster leaves every other cluster —
its factory, cursor, member list, and hence every reported statistic —
unchanged. -/
theorem C8_isolation (w : World) (cid : Nat) (op : Op) (j : Nat) (hj : j ≠ cid) :
    (worldOp w cid op)[j]? = w[j]?
    ∧ ((worldOp w cid op)[j]?).map (fun e =>
        (getClusterSize e.2, getPoolSize e.2, availableObjectsCount e.2,
         waitingClientsCount e.2))
      = (w[j]?).map (fun e =>
        (getClusterSize e.2, getPoolSize e.2, availableObjectsCount e.2,
         waitingClientsCount e.2)) := by
  have h := worldOp_frame w cid op j hj
  exact ⟨h, by rw [h]⟩

/-- Witness for C8: acquiring on the first of two clusters leaves the
second entry untouched. -/
theorem C8_witness :
    (worldOp exWorld 0 (Op.acquire none))[1]? = exWorld[1]? :=
  (C8_isolation exWorld 0 (Op.acquire none) 1 (by decide)).1

/-- C9: on a nonempty cluster with an in-range cursor the selected index
is a defined value in `[0, N)` (so the member-array access is in bounds
and every acquire delegates to it), and the recovery branch guarded by
`typeof useIndex == -1` never executes. -/
theorem C9_selection_defined_in_bounds (st : ClusterState)
    (hN : 0 < st.cluster.length) (hc : st.index < st.cluster.length) :
    (0 ≤ useIndexFinal st ∧ useIndexFinal st < (st.cluster.length : Int))
    ∧ recoveryCond st = false
    ∧ (∀ p : Option Int,
        (acquire st p).outcome = AcquireOutcome.delegated (useIndexFinal st) none) := by
  refine ⟨useIndexFinal_bounds st hN hc, recoveryCond_eq_false st, ?_⟩
  intro p
  rw [acquire_eq st p (by omega)]

/-- Witness for C9: scenario P3. -/
theorem C9_witness : recoveryCond exP3 = false :=
  (C9_selection_defined_in_bounds exP3 (by decide) (by decide)).2.1

/-- C10: `add` returns the shared factory object unchanged, leaves every
previously added member in place, appends one member whose pool was built
from a fresh object that copies every factory field (for a duplicate-free
factory) with the producer substituted under `create`, and leaves every
other cluster of the world untouched. -/
theorem C10_add_copies_factory (factory : Obj) (st : ClusterState) (c : FVal) :
    (add factory st c).1 = factory
    ∧ (∀ i, i < st.cluster.length →
        (add factory st c).2.cluster[i]? = st.cluster[i]?)
    ∧ (add factory st c).2.cluster[st.cluster.length]?
        = some (PoolModule_Pool (mkPoolFactory factory c))
    ∧ (mkPoolFactory factory c).lookup "create" = some c
    ∧ ((factory.map Prod.fst).Nodup →
        ∀ k, k ≠ "create" →
          (mkPoolFactory factory c).lookup k = factory.lookup k)
    ∧ (∀ (w : World) (cid j : Nat), j ≠ cid →
        (worldOp w cid (Op.add c))[j]? = w[j]?) := by
  refine ⟨rfl, ?_, ?_, mkPoolFactory_lookup_create factory c, ?_, ?_⟩
  · intro i hi
    show (st.cluster ++ [PoolModule_Pool (mkPoolFactory factory c)])[i]?
        = st.cluster[i]?
    exact List.getElem?_append_left hi
  · show (st.cluster ++ [PoolModule_Pool (mkPoolFactory factory c)])[st.cluster.length]?
        = some (PoolModule_Pool (mkPoolFactory factory c))
    exact List.getElem?_concat_length _ _
  · intro hnd k hk
    exact mkPoolFactory_lookup_ne factory c k hk hnd
  · intro w cid j hj
    exact worldOp_frame w cid (Op.add c) j hj

/-- Witness for C10: the factory of the tests keeps its `max` field. -/
theorem C10_witness :
    (mkPoolFactory exFactory (FVal.fn 1)).lookup "max" = exFactory.lookup "max" :=
  (C10_add_copies_factory exFactory create (FVal.fn 1)).2.2.2.2.1
    (by decide) "max" (by decide)

end ClusterPool
